import Mathlib

/-!
Shallow embedding of `src/js/ydn/db/websql.js` (the WebSQL adapter of ydn-db):
schema catalog data model, record codec, query/fetch scan loop, mutation
operations and the transaction gateway, together with proofs of the spec's
claims about them.

JavaScript values relevant to this adapter are modelled by `JsVal`
(strings, integral numbers, and the NaN produced by failed numeric parses);
records (domain objects) and rows are association lists from field/column
names to values.  Assertion failures and thrown exceptions are modelled by
`Option`/`none`.
-/

/-- A JavaScript value as stored in records and row cells: a string, an
integral number, or NaN (result of a failed `parseInt`/`parseFloat`). -/
inductive JsVal where
  | VStr (s : String)
  | VInt (n : Int)
  | VNaN
  deriving DecidableEq, Repr

open JsVal

/-- Column affinity, from `ydn.db.DataType` as used in `parseRow`. -/
inductive DataType where
  | TEXT
  | INTEGER
  | FLOAT
  deriving DecidableEq, Repr

/-- `ydn.db.IndexSchema`: a named typed column with a uniqueness flag. -/
structure IndexSchema where
  name : String
  type : DataType
  unique : Bool
  deriving DecidableEq, Repr

/-- `ydn.db.StoreSchema`: a named table with an optional key path and a
list of index columns. -/
structure StoreSchema where
  name : String
  keyPath : Option String
  indexes : List IndexSchema
  deriving DecidableEq, Repr

/-- `ydn.db.DatabaseSchema`: the catalog of declared stores. -/
structure DatabaseSchema where
  version : Nat
  size : Nat
  stores : List StoreSchema
  deriving DecidableEq, Repr

/-- A domain object: an association list from field names to values
(JavaScript objects have no duplicate property names; insertion order is
preserved). -/
abbrev Record := List (String × JsVal)

/-- A database row: an association list from column names to cell values. -/
abbrev Row := List (String × JsVal)

/-- Modelled from the spec: `ydn.db.DEFAULT_KEY_COLUMN` (defined in
`core/db.js`, not in src) — the reserved surrogate key column name. -/
def DEFAULT_KEY_COLUMN : String := "_id_"

/-- Modelled from the spec: `ydn.db.DEFAULT_BLOB_COLUMN` (defined in
`core/db.js`, not in src) — the reserved column holding the full
serialized record. -/
def DEFAULT_BLOB_COLUMN : String := "_default_"

/-- Property lookup `obj[name]` on an association list: the value of the
first entry with the given name, or `none` (JS `undefined`). -/
def alookup : List (String × JsVal) → String → Option JsVal
  | [], _ => none
  | p :: rest, k => if p.1 = k then some p.2 else alookup rest k

/-- Property assignment `obj[name] = v`: update the existing entry in
place, or append a new one (JS object semantics). -/
def setJsField (r : Record) (k : String) (v : JsVal) : Record :=
  if (alookup r k).isSome then
    r.map (fun p => if p.1 = k then (k, v) else p)
  else
    r ++ [(k, v)]

/-- JavaScript `String(v)` for the values in our model. -/
def jsToString : JsVal → String
  | VStr s => s
  | VInt n => toString n
  | VNaN => "NaN"

/-- Leading-digit accumulation used by the numeric-parse models. -/
def digitsToNat : List Char → Nat → Nat
  | [], acc => acc
  | c :: rest, acc =>
    if c.isDigit then digitsToNat rest (acc * 10 + (c.toNat - 48)) else acc

/-- Whether a character list starts with a digit. -/
def startsWithDigit : List Char → Bool
  | [] => false
  | c :: _ => c.isDigit

/-- JavaScript `parseInt(v, 10)`: identity on integral numbers, decimal
prefix parse on strings, NaN otherwise. -/
def jsParseInt : JsVal → JsVal
  | VInt n => VInt n
  | VNaN => VNaN
  | VStr s =>
    match s.data with
    | '-' :: rest =>
      if startsWithDigit rest then VInt (-(digitsToNat (rest.takeWhile Char.isDigit) 0 : Int))
      else VNaN
    | l =>
      if startsWithDigit l then VInt (digitsToNat (l.takeWhile Char.isDigit) 0)
      else VNaN

/-- JavaScript `parseFloat(v)` restricted to the integral numbers of the
model (floating-point fractions are outside the embedding's value domain). -/
def jsParseFloat : JsVal → JsVal
  | VInt n => VInt n
  | VNaN => VNaN
  | VStr s =>
    match s.data with
    | '-' :: rest =>
      if startsWithDigit rest then VInt (-(digitsToNat (rest.takeWhile Char.isDigit) 0 : Int))
      else VNaN
    | l =>
      if startsWithDigit l then VInt (digitsToNat (l.takeWhile Char.isDigit) 0)
      else VNaN

/-- Whether a record field value matches a declared column affinity.
`FLOAT` affinity has no matching value in the model (floating-point values
are outside the embedding's value domain). -/
def matchesAffinity : JsVal → DataType → Bool
  | VStr _, DataType.TEXT => true
  | VInt _, DataType.INTEGER => true
  | _, _ => false

/-! ### Lossless serialization (`ydn.json`)

`ydn.json.stringify`/`ydn.json.parse` live outside src.  Modelled from the
spec: the payload column holds "a losslessly serialized full
representation" of the record; we realize this with an injective
length-prefixed encoding into a character string and its matching parser. -/

/-- Unary length prefix terminated by a colon. -/
def encNat (n : Nat) : List Char := List.replicate n '1' ++ [':']

/-- Parse a unary length prefix. -/
def decNat : List Char → Option (Nat × List Char)
  | [] => none
  | c :: rest =>
    if c = ':' then some (0, rest)
    else if c = '1' then (decNat rest).map (fun p => (p.1 + 1, p.2))
    else none

/-- Read exactly `n` characters. -/
def readN : Nat → List Char → Option (List Char × List Char)
  | 0, l => some ([], l)
  | _ + 1, [] => none
  | n + 1, c :: l => (readN n l).map (fun p => (c :: p.1, p.2))

/-- Encode a string as length prefix plus its characters. -/
def encStr (s : String) : List Char := encNat s.length ++ s.data

/-- Parse a length-prefixed string. -/
def decStr (l : List Char) : Option (String × List Char) :=
  (decNat l).bind fun p => (readN p.1 p.2).map (fun q => (String.mk q.1, q.2))

/-- Encode a value with a one-character tag. -/
def encVal : JsVal → List Char
  | VStr s => 's' :: encStr s
  | VInt (Int.ofNat n) => 'p' :: encNat n
  | VInt (Int.negSucc n) => 'm' :: encNat n
  | VNaN => ['N']

/-- Parse a tagged value. -/
def decVal : List Char → Option (JsVal × List Char)
  | [] => none
  | c :: rest =>
    if c = 's' then (decStr rest).map (fun p => (VStr p.1, p.2))
    else if c = 'p' then (decNat rest).map (fun p => (VInt (Int.ofNat p.1), p.2))
    else if c = 'm' then (decNat rest).map (fun p => (VInt (Int.negSucc p.1), p.2))
    else if c = 'N' then some (VNaN, rest)
    else none

/-- Encode one record field. -/
def encField (p : String × JsVal) : List Char := encStr p.1 ++ encVal p.2

/-- Parse one record field. -/
def decField (l : List Char) : Option ((String × JsVal) × List Char) :=
  (decStr l).bind fun p => (decVal p.2).map (fun q => ((p.1, q.1), q.2))

/-- Encode a record as a field count followed by its fields. -/
def encRecord (r : Record) : List Char :=
  encNat r.length ++ (r.map encField).flatten

/-- Parse exactly `n` record fields. -/
def decFields : Nat → List Char → Option (Record × List Char)
  | 0, l => some ([], l)
  | n + 1, l =>
    (decField l).bind fun p => (decFields n p.2).map (fun q => (p.1 :: q.1, q.2))

/-- Parse a record. -/
def decRecord (l : List Char) : Option (Record × List Char) :=
  (decNat l).bind fun p => decFields p.1 p.2

/-- Modelled from the spec: `ydn.json.stringify` — lossless serialization
of a record into a string. -/
def jsonStringify (r : Record) : String := String.mk (encRecord r)

/-- Modelled from the spec: `ydn.json.parse` — parse a serialized record;
`none` models a thrown parse error. -/
def jsonParse (s : String) : Option Record :=
  match decRecord s.data with
  | some (r, []) => some r
  | _ => none

theorem decNat_encNat (n : Nat) (rest : List Char) :
    decNat (encNat n ++ rest) = some (n, rest) := by
  induction n with
  | zero => simp [encNat, decNat]
  | succ k ih =>
    have h : encNat (k + 1) ++ rest = '1' :: (encNat k ++ rest) := by
      simp [encNat, List.replicate_succ]
    rw [h]
    simp [decNat, ih]

theorem readN_exact (l rest : List Char) :
    readN l.length (l ++ rest) = some (l, rest) := by
  induction l with
  | nil => simp [readN]
  | cons c t ih => simp [readN, ih]

theorem readN_data (s : String) (rest : List Char) :
    readN s.length (s.data ++ rest) = some (s.data, rest) :=
  readN_exact s.data rest

theorem string_mk_data (s : String) : String.mk s.data = s := rfl

theorem decStr_encStr (s : String) (rest : List Char) :
    decStr (encStr s ++ rest) = some (s, rest) := by
  simp [encStr, decStr, List.append_assoc, decNat_encNat, readN_data,
    string_mk_data]

theorem decVal_encVal (v : JsVal) (rest : List Char) :
    decVal (encVal v ++ rest) = some (v, rest) := by
  cases v with
  | VStr s => simp [encVal, decVal, decStr_encStr]
  | VInt n =>
    cases n with
    | ofNat m => simp [encVal, decVal, decNat_encNat]
    | negSucc m => simp [encVal, decVal, decNat_encNat]
  | VNaN => simp [encVal, decVal]

theorem decField_encField (p : String × JsVal) (rest : List Char) :
    decField (encField p ++ rest) = some (p, rest) := by
  simp [encField, decField, decStr_encStr, decVal_encVal]

theorem decFields_encFields (r : Record) (rest : List Char) :
    decFields r.length ((r.map encField).flatten ++ rest) = some (r, rest) := by
  induction r with
  | nil => simp [decFields]
  | cons p t ih =>
    simp only [List.map_cons, List.flatten, List.length_cons, List.append_assoc]
    simp [decFields, decField_encField, ih]

theorem decRecord_encRecord (r : Record) (rest : List Char) :
    decRecord (encRecord r ++ rest) = some (r, rest) := by
  simp [encRecord, decRecord, decNat_encNat, decFields_encFields]

theorem jsonParse_jsonStringify (r : Record) :
    jsonParse (jsonStringify r) = some r := by
  have h := decRecord_encRecord r []
  simp only [List.append_nil] at h
  simp [jsonParse, jsonStringify, h]

/-! ### Schema catalog operations -/

/-- `ydn.db.DatabaseSchema.prototype.getStore` (outside src).  Modelled
from the spec: "resolve a store by name". -/
def getStore (schema : DatabaseSchema) (name : String) : Option StoreSchema :=
  schema.stores.find? (fun st => st.name = name)

/-- `ydn.db.DatabaseSchema.prototype.hasStore` (outside src).  Modelled
from the spec: whether the catalog declares a store of that name. -/
def hasStore (schema : DatabaseSchema) (name : String) : Bool :=
  (getStore schema name).isSome

/-- `goog.string.quote` / `getQuotedName` (outside src).  Modelled from
the spec: "quote identifiers". -/
def quoted (s : String) : String := "\"" ++ s ++ "\""

/-- `ydn.db.StoreSchema.prototype.hasIndex` (outside src).  Modelled from
the spec: whether the store's index list names the column. -/
def StoreSchema.hasIndex (st : StoreSchema) (name : String) : Bool :=
  st.indexes.any (fun ix => ix.name = name)

/-- `ydn.db.StoreSchema.prototype.addIndex` (outside src).  Modelled from
the spec: the reserved payload column is "added to the Store's index
list". -/
def StoreSchema.addIndex (st : StoreSchema) (name : String) : StoreSchema :=
  { st with indexes := st.indexes ++ [⟨name, DataType.TEXT, false⟩] }

/-- `ydn.db.WebSql.prototype.prepareCreateTable`: builds the
`CREATE TABLE IF NOT EXISTS` statement for one store.  The source mutates
the store schema (`schema.addIndex(ydn.db.DEFAULT_BLOB_COLUMN)` when the
payload column is absent); the mutation is made explicit by returning the
updated store schema together with the SQL text. -/
def prepareCreateTable (schema : StoreSchema) : String × StoreSchema :=
  let sqlHead := "CREATE TABLE IF NOT EXISTS " ++ quoted schema.name ++ " ("
  let sqlKey :=
    match schema.keyPath with
    | some kp => quoted kp ++ " TEXT UNIQUE PRIMARY KEY"
    | none => DEFAULT_KEY_COLUMN ++ " INTEGER PRIMARY KEY"
  let schema' :=
    if schema.hasIndex DEFAULT_BLOB_COLUMN then schema
    else schema.addIndex DEFAULT_BLOB_COLUMN
  let typeName : DataType → String
    | DataType.TEXT => "TEXT"
    | DataType.INTEGER => "INTEGER"
    | DataType.FLOAT => "REAL"
  let cols := schema'.indexes.foldl
    (fun acc ix =>
      if some ix.name = schema.keyPath then acc
      else acc ++ ", " ++ ix.name ++ (if ix.unique then " UNIQUE " else " ") ++
        typeName ix.type)
    ""
  (sqlHead ++ sqlKey ++ cols ++ ");", schema')

/-! ### Record codec -/

/-- Index cells produced for a put: for every declared index other than
the payload column and the key path, the record's field value when
present (absent fields are omitted, not stored as null). -/
def indexedCells (table : StoreSchema) (obj : Record) : Row :=
  table.indexes.filterMap fun ix =>
    if ix.name = DEFAULT_BLOB_COLUMN ∨ some ix.name = table.keyPath then none
    else (alookup obj ix.name).map (fun v => (ix.name, v))

/-- Modelled from the spec:
`ydn.db.StoreSchema.prototype.getIndexedValues` (in `core/schema.js`, not
in src) — encodes a record for insertion.  Always includes the payload
column bound to the full serialized record; binds the key column to the
declared key-path field's value coerced to a string when a key path
exists, or to the catalog-generated surrogate integer key otherwise; adds
a column/value pair for every other declared index whose field is present.
Returns the resulting row (column/value pairs as inserted) and the key. -/
def getIndexedValues (table : StoreSchema) (obj : Record) (genKey : Int) :
    Row × JsVal :=
  match table.keyPath with
  | some kp =>
    let keyStr :=
      match alookup obj kp with
      | some v => jsToString v
      | none => "undefined"
    ((kp, VStr keyStr) ::
       (DEFAULT_BLOB_COLUMN, VStr (jsonStringify obj)) :: indexedCells table obj,
     VStr keyStr)
  | none =>
    ((DEFAULT_KEY_COLUMN, VInt genKey) ::
       (DEFAULT_BLOB_COLUMN, VStr (jsonStringify obj)) :: indexedCells table obj,
     VInt genKey)

/-- `ydn.db.StoreSchema.prototype.setKey` (outside src).  Modelled from
the spec: "overlays the key field" — sets the key-path property of the
record to the given key string. -/
def setKey (_table : StoreSchema) (value : Record) (kp : String) (key : String) :
    Record :=
  setJsField value kp (VStr key)

/-- One step of the index-overlay loop of `parseRow`: skip the payload
column; otherwise, when the row has the column, coerce by affinity
(`parseInt` for INTEGER, `parseFloat` for FLOAT, pass-through for TEXT)
and assign it onto the record. -/
def overlayIndex (row : Row) (value : Record) (index : IndexSchema) : Record :=
  if index.name = DEFAULT_BLOB_COLUMN then value
  else
    match alookup row index.name with
    | none => value
    | some x =>
      let x' :=
        match index.type with
        | DataType.INTEGER => jsParseInt x
        | DataType.FLOAT => jsParseFloat x
        | DataType.TEXT => x
      setJsField value index.name x'

/-- `ydn.db.WebSql.prototype.parseRow`: parse a fetched row back into a
record.  Parses the payload column, asserts the key-path cell is a string
(`goog.asserts.assertString` — `none` models the assertion failure, which
also fires when the store declares no key path, since `row[undefined]` is
undefined), overlays the key, then overlays every non-payload index column
present in the row with affinity coercion. -/
def parseRow (table : StoreSchema) (row : Row) : Option Record :=
  match alookup row DEFAULT_BLOB_COLUMN with
  | some (VStr payload) =>
    match jsonParse payload with
    | some value =>
      match table.keyPath with
      | none => none
      | some kp =>
        match alookup row kp with
        | some (VStr key) =>
          some (table.indexes.foldl (overlayIndex row) (setKey table value kp key))
        | _ => none
    | none => none
  | _ => none

/-! ### Query executor (`fetch`) -/

/-- `ydn.db.Query` as consumed by `fetch`: optional chain functions.  The
`continue` predicate is named `cont` (`continue` is a Lean keyword).  The
reduce accumulator starts as JS `undefined`, modelled by `Option Record`. -/
structure Query where
  store : String
  cont : Option (Record → Bool)
  filter : Option (Record → Bool)
  map : Option (Record → Record)
  reduce : Option (Option Record → Record → Nat → Option Record)

/-- The value the fetch callback resolves with: an ordered result
sequence, or the reduce accumulator (which starts undefined). -/
inductive FetchOutcome where
  | seq (xs : List Record)
  | folded (acc : Option Record)
  deriving DecidableEq

/-- `value = q.map(value)` when a map function is supplied. -/
def mapApply (q : Query) (v : Record) : Record :=
  match q.map with
  | none => v
  | some m => m v

/-- The body of the filter-pass branch: map, then push or fold. -/
def applyRow (q : Query) (res : FetchOutcome) (v : Record) (i : Nat) :
    FetchOutcome :=
  let value := mapApply q v
  match q.reduce with
  | some f =>
    match res with
    | FetchOutcome.folded acc => FetchOutcome.folded (f acc value i)
    | FetchOutcome.seq xs => FetchOutcome.seq xs
  | none =>
    match res with
    | FetchOutcome.seq xs => FetchOutcome.seq (xs ++ [value])
    | FetchOutcome.folded acc => FetchOutcome.folded acc

/-- The scan loop of the `fetch` result callback (source lines 465–485):
for each row in fetch order, decode it (`parseRow`; `none` models the
thrown assertion aborting the callback), evaluate the continuation
predicate, run the filter/map/push-or-reduce branch, then break unless
the continuation holds and the row index is below the limit. -/
def fetchGo (store : StoreSchema) (q : Query) (limit : Option Nat) :
    Nat → FetchOutcome → List Row → Option FetchOutcome
  | _, res, [] => some res
  | i, res, row :: rest =>
    match parseRow store row with
    | none => none
    | some value =>
      let toContinue :=
        match q.cont with
        | none => true
        | some c => c value
      let res' :=
        if (match q.filter with
            | none => true
            | some f => f value) then applyRow q res value i
        else res
      if toContinue && (match limit with
          | none => true
          | some l => i < l) then
        fetchGo store q limit (i + 1) res' rest
      else
        some res'

/-- `ydn.db.WebSql.prototype.fetch`'s result callback applied to the
rows returned by the backend: the result accumulator starts as an empty
sequence, or as the undefined fold accumulator when a reduce function is
present. -/
def fetchCallback (store : StoreSchema) (q : Query) (limit : Option Nat)
    (rows : List Row) : Option FetchOutcome :=
  fetchGo store q limit 0
    (if q.reduce.isSome then FetchOutcome.folded none else FetchOutcome.seq [])
    rows

/-! ### Transaction gateway and mutation operations -/

/-- A statement submitted to the backend: which physical transaction it
runs on, its SQL text and its bound parameters. -/
structure SqlStmt where
  tx : Nat
  sql : String
  params : List JsVal
  deriving DecidableEq, Repr

/-- What the synchronous part of `executeGet_` did: whether the deferred
was rejected, whether a JS exception escaped, and the statement issued
(if any). -/
structure GetExec where
  errbacked : Bool
  threw : Bool
  stmt : Option SqlStmt
  deriving DecidableEq, Repr

/-- `ydn.db.WebSql.prototype.executeGet_` (synchronous part): an unknown
store rejects the deferred — and then, because the source lacks a
`return`, dereferences the null store (`table.getQuotedName()`), throwing
before any statement is issued.  A known store issues one SELECT, keyed
or unkeyed, on the given transaction. -/
def executeGet (schema : DatabaseSchema) (tx : Nat) (storeName : String)
    (key : Option JsVal) : GetExec :=
  match getStore schema storeName with
  | none => { errbacked := true, threw := true, stmt := none }
  | some table =>
    match key with
    | some k =>
      { errbacked := false, threw := false,
        stmt := some
          { tx := tx,
            sql := "SELECT * FROM " ++ quoted table.name ++ " WHERE " ++
              (match table.keyPath with
               | some kp => quoted kp
               | none => "undefined") ++ " = ?",
            params := [k] } }
    | none =>
      { errbacked := false, threw := false,
        stmt := some
          { tx := tx, sql := "SELECT * FROM " ++ quoted table.name,
            params := [] } }

/-- The value `executeGet_`'s result callback resolves the deferred with,
given the rows the backend returned: without a key, the decoded record
list (a mid-loop decode assertion, modelled by `none`, aborts the
callback); with a key, the first decoded row, or JS `undefined` when no
row matched. -/
inductive GetResolve where
  | recs (rs : List Record)
  | one (r : Record)
  | undef
  deriving DecidableEq

/-- Decode every row in order, failing on the first assertion. -/
def parseRows (table : StoreSchema) : List Row → Option (List Record)
  | [] => some []
  | row :: rest =>
    (parseRow table row).bind fun r =>
      (parseRows table rest).map (fun rs => r :: rs)

/-- The result callback of `executeGet_` (source lines 366–380). -/
def executeGetCallback (table : StoreSchema) (key : Option JsVal)
    (rows : List Row) : Option GetResolve :=
  match key with
  | none => (parseRows table rows).map GetResolve.recs
  | some _ =>
    match rows with
    | [] => some GetResolve.undef
    | row :: _ => (parseRow table row).map GetResolve.one

/-- What the synchronous part of `executePut_` did. -/
structure PutExec where
  errbacked : Bool
  stmts : List SqlStmt
  deriving DecidableEq, Repr

/-- The INSERT OR REPLACE statement for one record. -/
def putStmt (tx : Nat) (table : StoreSchema) (obj : Record) (genKey : Int) :
    SqlStmt :=
  let out := getIndexedValues table obj genKey
  { tx := tx,
    sql := "INSERT OR REPLACE INTO " ++ quoted table.name ++ " (" ++
      String.intercalate ", " (out.1.map (fun p => p.1)) ++ ") VALUES (" ++
      String.intercalate ", " (out.1.map (fun _ => "?")) ++ ");",
    params := out.1.map (fun p => p.2) }

/-- `ydn.db.WebSql.prototype.executePut_` (synchronous part): an unknown
store rejects the deferred and returns without issuing a statement;
otherwise one INSERT OR REPLACE per item is queued on the transaction
(`has_error` is only set by the asynchronous error callback, so the
synchronous loop queues them all).  `gen` supplies the catalog-generated
surrogate key for each item index. -/
def executePut (schema : DatabaseSchema) (tx : Nat) (storeName : String)
    (arr : List Record) (gen : Nat → Int) : PutExec :=
  match getStore schema storeName with
  | none => { errbacked := true, stmts := [] }
  | some table =>
    { errbacked := false,
      stmts := (List.range arr.length).map fun i =>
        putStmt tx table (arr.getD i []) (gen i) }

/-- `ydn.db.WebSql.prototype.getInTransaction`: makes a fresh deferred and
runs `executeGet_` against the supplied physical transaction. -/
def getInTransaction (schema : DatabaseSchema) (tx : Nat) (store : String)
    (id : JsVal) : GetExec :=
  executeGet schema tx store (some id)

/-- `ydn.db.WebSql.prototype.putInTransaction`: makes a fresh deferred and
runs `executePut_` against the supplied physical transaction. -/
def putInTransaction (schema : DatabaseSchema) (tx : Nat) (store : String)
    (value : List Record) (gen : Nat → Int) : PutExec :=
  executePut schema tx store value gen

/-- `ydn.db.WebSql.prototype.clearInTransaction`: the source is an empty
function body (`function(tx, store, id) {};`) — it issues nothing and
returns JS `undefined` (despite its doc's `@return {!goog.async.Deferred}`),
modelled as `none`. -/
def clearInTransaction (_tx : Nat) (_store : String) (_id : JsVal) :
    Option GetExec :=
  none

/-- `ydn.db.WebSql.prototype.clear_` : builds and submits the DELETE for
one table (source lines 517–557).  `goog.asserts.assertObject(store)`
fails — modelled by `none` — when the named store is not in the catalog;
an undefined table name submits the empty SQL string unchanged, as the
source does. -/
def clearOne (schema : DatabaseSchema) (tx : Nat) (tableName : Option String)
    (optKey : Option JsVal) : Option SqlStmt :=
  match tableName with
  | none => some { tx := tx, sql := "", params := [] }
  | some name =>
    match getStore schema name with
    | none => none
    | some store =>
      match optKey with
      | none =>
        some { tx := tx, sql := "DELETE FROM  " ++ quoted store.name,
               params := [] }
      | some k =>
        some { tx := tx,
               sql := "DELETE FROM  " ++ quoted store.name ++ " WHERE " ++
                 (match store.keyPath with
                  | some kp => quoted kp
                  | none => DEFAULT_KEY_COLUMN) ++ " = ?",
               params := [k] }

/-- Modelled from the spec: the schema catalog object (constructed in
`core/schema.js`, outside src) carries at least `version`, `size` and
`stores` as own enumerable properties — the properties this file's source
reads off it.  A JavaScript `for..in` loop over the catalog object
(`for (var store in this.schema)`) therefore yields these property-name
strings (followed by enumerable prototype methods), never the declared
stores' names. -/
def schemaForInProps (_schema : DatabaseSchema) : List String :=
  ["version", "size", "stores"]

/-- `ydn.db.WebSql.prototype.clear` (source lines 667–681): with a table
argument, checks the catalog (`throw Error` on an unknown table, modelled
by `none`) and delegates to `clear_`; with no argument, runs
`for (var store in this.schema)` — iterating the catalog object's
property names — and calls `clear_` on each such name.  The first
`clear_` assertion failure throws out of the loop, so the whole call
returns `none`. -/
def ydbClear (schema : DatabaseSchema) (tx : Nat) (optTable : Option String)
    (optKey : Option JsVal) : Option (List SqlStmt) :=
  match optTable with
  | some t =>
    if hasStore schema t then
      (clearOne schema tx (some t) optKey).map (fun s => [s])
    else none
  | none =>
    (schemaForInProps schema).mapM (fun p => clearOne schema tx (some p) none)

/-! ### `runInTransaction` and the per-token scope association -/

/-- A caller-supplied scope token (`ydn.db.Key`): carries its identity and
the injected `tx` field (absent outside a scope). -/
structure Token where
  id : Nat
  tx : Option Nat
  deriving DecidableEq, Repr

/-- The outward deferred of `runInTransaction`, reduced to what it does to
the token state: the handlers registered with `addBoth`, which run — on
success and on failure alike — when the deferred settles, before any
caller-registered callback observes the settlement. -/
structure ScopeDeferred where
  bothHandlers : List (List Token → List Token)

/-- Settling the deferred with either outcome (`success = true/false`)
runs every `addBoth` handler, in registration order, over the token
state; the resulting state is what caller callbacks observe. -/
def settleScope (d : ScopeDeferred) (_success : Bool) (st : List Token) :
    List Token :=
  d.bothHandlers.foldl (fun s f => f s) st

/-- The result of `ydn.db.WebSql.prototype.runInTransaction` (source lines
811–836): the physical transaction's callback injects `key.tx = tx` into
every scope token, then runs the transaction function; the returned
deferred carries one `addBoth` handler that deletes `key.tx` from every
token. -/
structure RunInTxResult where
  keysAfterStart : List Token
  df : ScopeDeferred

/-- `ydn.db.WebSql.prototype.runInTransaction`. -/
def runInTransaction (txId : Nat) (keys : List Token) : RunInTxResult :=
  { keysAfterStart := keys.map (fun k => { k with tx := some txId }),
    df := { bothHandlers := [fun ks => ks.map (fun k => { k with tx := none })] } }

/-! ### Concrete data used by witnesses and counterexamples -/

/-- Declared indexes of the demo store: one text index plus the reserved
payload column (present after migration). -/
def noteIndexes : List IndexSchema :=
  [⟨"tag", DataType.TEXT, false⟩, ⟨DEFAULT_BLOB_COLUMN, DataType.TEXT, false⟩]

/-- The spec's concrete scenario store: "note" with key path "id". -/
def noteStore : StoreSchema := ⟨"note", some "id", noteIndexes⟩

/-- A catalog declaring just the "note" store. -/
def demoSchema : DatabaseSchema := ⟨1, 1000, [noteStore]⟩

/-- Demo record with key "a". -/
def recA : Record := [("id", VStr "a"), ("tag", VStr "x")]

/-- Demo record with key "b". -/
def recB : Record := [("id", VStr "b"), ("tag", VStr "y")]

/-- The row `put` inserts for `recA`. -/
def rowA : Row := (getIndexedValues noteStore recA 0).1

/-- The row `put` inserts for `recB`. -/
def rowB : Row := (getIndexedValues noteStore recB 0).1

/-! ### Helper lemmas -/

theorem map_update_of_not_mem (t : Record) (k : String) (v : JsVal)
    (h : ∀ p ∈ t, p.1 ≠ k) :
    t.map (fun p => if p.1 = k then (k, v) else p) = t := by
  induction t with
  | nil => rfl
  | cons p rest ih =>
    have hp : p.1 ≠ k := h p (by simp)
    simp only [List.map_cons, if_neg hp]
    rw [ih (fun q hq => h q (by simp [hq]))]

theorem alookup_mem_keys (r : Record) (k : String) (v : JsVal)
    (h : alookup r k = some v) : k ∈ r.map Prod.fst := by
  induction r with
  | nil => simp [alookup] at h
  | cons p rest ih =>
    by_cases hk : p.1 = k
    · simp [hk]
    · simp only [alookup, if_neg hk] at h
      simp [ih h]

theorem setJsField_eq_self (r : Record) (k : String) (v : JsVal)
    (hnd : (r.map Prod.fst).Nodup) (h : alookup r k = some v) :
    setJsField r k v = r := by
  have hs : (alookup r k).isSome := by rw [h]; rfl
  rw [setJsField, if_pos hs]
  induction r with
  | nil => rfl
  | cons p rest ih =>
    by_cases hk : p.1 = k
    · simp only [alookup, if_pos hk] at h
      have hv : p = (k, v) := by
        cases p
        simp_all
      simp only [List.map_cons, if_pos hk]
      rw [hv]
      have hrest : ∀ q ∈ rest, q.1 ≠ k := by
        intro q hq hqk
        simp only [List.map_cons, List.nodup_cons] at hnd
        apply hnd.1
        rw [hk, ← hqk]
        exact List.mem_map_of_mem Prod.fst hq
      rw [map_update_of_not_mem rest k v hrest]
    · simp only [alookup, if_neg hk] at h
      simp only [List.map_cons, List.nodup_cons] at hnd
      simp only [List.map_cons, if_neg hk]
      have hs' : (alookup rest k).isSome := by rw [h]; rfl
      rw [ih hnd.2 h hs']

theorem alookup_cells_not_mem (table : StoreSchema) (obj : Record) :
    ∀ (ixs : List IndexSchema) (nm : String),
      nm ∉ ixs.map IndexSchema.name →
      alookup (ixs.filterMap fun ix =>
        if ix.name = DEFAULT_BLOB_COLUMN ∨ some ix.name = table.keyPath then none
        else (alookup obj ix.name).map (fun v => (ix.name, v))) nm = none := by
  intro ixs
  induction ixs with
  | nil => intro nm _; rfl
  | cons ix rest ih =>
    intro nm hnm
    simp only [List.map_cons, List.mem_cons, not_or] at hnm
    simp only [List.filterMap_cons]
    by_cases hskip : ix.name = DEFAULT_BLOB_COLUMN ∨ some ix.name = table.keyPath
    · rw [if_pos hskip]
      exact ih nm hnm.2
    · rw [if_neg hskip]
      cases hob : alookup obj ix.name with
      | none => simp only [Option.map_none']; exact ih nm hnm.2
      | some v =>
        simp only [Option.map_some']
        rw [alookup, if_neg (fun h => hnm.1 h.symm)]
        exact ih nm hnm.2

theorem alookup_cells_of_mem (table : StoreSchema) (obj : Record) :
    ∀ (ixs : List IndexSchema) (nm : String),
      (ixs.map IndexSchema.name).Nodup →
      (∃ ix ∈ ixs, ix.name = nm) →
      nm ≠ DEFAULT_BLOB_COLUMN →
      some nm ≠ table.keyPath →
      alookup (ixs.filterMap fun ix =>
        if ix.name = DEFAULT_BLOB_COLUMN ∨ some ix.name = table.keyPath then none
        else (alookup obj ix.name).map (fun v => (ix.name, v))) nm =
        alookup obj nm := by
  intro ixs
  induction ixs with
  | nil =>
    intro nm _ hex _ _
    obtain ⟨ix, hmem, _⟩ := hex
    exact absurd hmem (List.not_mem_nil ix)
  | cons ix0 rest ih =>
    intro nm hnd hex hblob hkp
    simp only [List.map_cons, List.nodup_cons] at hnd
    simp only [List.filterMap_cons]
    by_cases hhead : ix0.name = nm
    · rw [if_neg (by rw [hhead]; exact not_or.mpr ⟨hblob, hkp⟩)]
      cases hob : alookup obj ix0.name with
      | none =>
        simp only [Option.map_none']
        rw [alookup_cells_not_mem table obj rest nm (by rw [← hhead]; exact hnd.1)]
        rw [hhead] at hob
        exact hob.symm
      | some v =>
        simp only [Option.map_some']
        rw [alookup, if_pos hhead]
        rw [hhead] at hob
        exact hob.symm
    · obtain ⟨ix, hmem, hix⟩ := hex
      have hmem' : ix ∈ rest := by
        rcases List.mem_cons.mp hmem with h | h
        · exact absurd (h ▸ hix) hhead
        · exact h
      by_cases hskip : ix0.name = DEFAULT_BLOB_COLUMN ∨ some ix0.name = table.keyPath
      · rw [if_pos hskip]
        exact ih nm hnd.2 ⟨ix, hmem', hix⟩ hblob hkp
      · rw [if_neg hskip]
        cases hob : alookup obj ix0.name with
        | none =>
          simp only [Option.map_none']
          exact ih nm hnd.2 ⟨ix, hmem', hix⟩ hblob hkp
        | some v =>
          simp only [Option.map_some']
          rw [alookup, if_neg hhead]
          exact ih nm hnd.2 ⟨ix, hmem', hix⟩ hblob hkp

theorem foldl_overlay_id (row : Row) (value : Record) :
    ∀ (ixs : List IndexSchema),
      (∀ ix ∈ ixs, overlayIndex row value ix = value) →
      ixs.foldl (overlayIndex row) value = value := by
  intro ixs
  induction ixs with
  | nil => intro _; rfl
  | cons ix rest ih =>
    intro h
    simp only [List.foldl_cons]
    rw [h ix (by simp)]
    exact ih (fun j hj => h j (by simp [hj]))

/-- A store with no declared key path (surrogate integer key). -/
def noKpStore : StoreSchema := ⟨"kv", none, noteIndexes⟩

/-- A record whose key-path field is a number, not a string. -/
def recNum : Record := [("id", VInt 5)]

/-- C5 (amended): for every store **with a declared key path** and every
record whose key-path field **is a string** and whose declared index
fields match their affinities, decoding the encoded row reproduces the
record — key, index fields and payload — exactly, and the encode step
reports the original key. -/
theorem c5_roundtrip_amended (table : StoreSchema) (obj : Record) (genKey : Int)
    (kp s : String)
    (hkp : table.keyPath = some kp)
    (hkey : alookup obj kp = some (VStr s))
    (hobj : (obj.map Prod.fst).Nodup)
    (hkpb : kp ≠ DEFAULT_BLOB_COLUMN)
    (hixkp : ∀ ix ∈ table.indexes, ix.name ≠ kp)
    (hixnd : (table.indexes.map IndexSchema.name).Nodup)
    (haff : ∀ ix ∈ table.indexes, ix.name ≠ DEFAULT_BLOB_COLUMN →
      ∀ v, alookup obj ix.name = some v → matchesAffinity v ix.type = true) :
    parseRow table (getIndexedValues table obj genKey).1 = some obj ∧
    (getIndexedValues table obj genKey).2 = VStr s := by
  have hrow : (getIndexedValues table obj genKey).1 =
      (kp, VStr s) :: (DEFAULT_BLOB_COLUMN, VStr (jsonStringify obj)) ::
        indexedCells table obj := by
    simp [getIndexedValues, hkp, hkey, jsToString]
  have hkey2 : (getIndexedValues table obj genKey).2 = VStr s := by
    simp [getIndexedValues, hkp, hkey, jsToString]
  refine ⟨?_, hkey2⟩
  rw [hrow]
  have hblob : alookup
      ((kp, VStr s) :: (DEFAULT_BLOB_COLUMN, VStr (jsonStringify obj)) ::
        indexedCells table obj) DEFAULT_BLOB_COLUMN =
      some (VStr (jsonStringify obj)) := by
    simp [alookup, hkpb]
  have hk2 : alookup
      ((kp, VStr s) :: (DEFAULT_BLOB_COLUMN, VStr (jsonStringify obj)) ::
        indexedCells table obj) kp = some (VStr s) := by
    simp [alookup]
  have hper : ∀ ix ∈ table.indexes,
      overlayIndex
        ((kp, VStr s) :: (DEFAULT_BLOB_COLUMN, VStr (jsonStringify obj)) ::
          indexedCells table obj) obj ix = obj := by
    intro ix hix
    by_cases hb : ix.name = DEFAULT_BLOB_COLUMN
    · simp [overlayIndex, hb]
    · have hnekp : ix.name ≠ kp := hixkp ix hix
      have hrowlook : alookup
          ((kp, VStr s) :: (DEFAULT_BLOB_COLUMN, VStr (jsonStringify obj)) ::
            indexedCells table obj) ix.name = alookup obj ix.name := by
        simp only [alookup]
        rw [if_neg (fun h => hnekp h.symm), if_neg (fun h => hb h.symm),
          indexedCells]
        exact alookup_cells_of_mem table obj table.indexes ix.name hixnd
          ⟨ix, hix, rfl⟩ hb
          (by rw [hkp]; exact fun h => hnekp (Option.some_injective _ h))
      simp only [overlayIndex, if_neg hb]
      rw [hrowlook]
      cases hov : alookup obj ix.name with
      | none => rfl
      | some x =>
        have hm := haff ix hix hb x hov
        cases htype : ix.type with
        | TEXT =>
          exact setJsField_eq_self obj ix.name x hobj hov
        | INTEGER =>
          rw [htype] at hm
          cases x with
          | VStr t => simp [matchesAffinity] at hm
          | VInt n => exact setJsField_eq_self obj ix.name (VInt n) hobj hov
          | VNaN => simp [matchesAffinity] at hm
        | FLOAT =>
          rw [htype] at hm
          cases x <;> simp [matchesAffinity] at hm
  simp only [parseRow, hblob, jsonParse_jsonStringify, hkp, hk2]
  rw [setKey, setJsField_eq_self obj kp (VStr s) hobj hkey]
  rw [foldl_overlay_id _ obj table.indexes hper]

/-- C5 counterexample: the round-trip claim fails as stated, on two
concrete inputs allowed by its hypotheses.  (1) The "note" store has key
path "id" and the record `{id: 5}` has no declared-index field at all (so
"declared Index fields match their affinities" holds vacuously), yet
decode(encode) yields `{id: "5"}` — the key comes back as a string, not
the original number.  (2) For a store with no declared key path, decoding
any encoded record fails the key assertion outright. -/
theorem c5_counterexample :
    parseRow noteStore (getIndexedValues noteStore recNum 0).1 =
      some [("id", VStr "5")] ∧
    some [("id", VStr "5")] ≠ some recNum ∧
    parseRow noKpStore (getIndexedValues noKpStore recA 7).1 = none := by
  refine ⟨by decide, by decide, by decide⟩

/-- C5 witness: the round trip at the spec's concrete store and record. -/
theorem c5_witness :
    parseRow noteStore (getIndexedValues noteStore recA 3).1 = some recA ∧
    (getIndexedValues noteStore recA 3).2 = VStr "a" :=
  c5_roundtrip_amended noteStore recA 3 "id" "a" rfl (by decide) (by decide)
    (by decide) (by decide) (by decide)
    (by
      intro ix hix hb v hv
      have hix' : ix = ⟨"tag", DataType.TEXT, false⟩ ∨
          ix = ⟨DEFAULT_BLOB_COLUMN, DataType.TEXT, false⟩ := by
        simpa [noteStore, noteIndexes] using hix
      rcases hix' with rfl | rfl
      · have hv' : v = VStr "x" := by
          simpa [recA, alookup] using hv.symm
        rw [hv']
        rfl
      · exact absurd rfl hb)

/-- C10: `parseRow` reads the key from the key-path column and asserts it
is a string: a store with no declared key path always fails to decode,
a row whose key-path cell is not a string always fails to decode, and any
successful decode implies a declared key path whose cell held a string. -/
theorem c10_parse_row_key_assertion :
    (∀ (table : StoreSchema) (row : Row),
      table.keyPath = none → parseRow table row = none) ∧
    (∀ (table : StoreSchema) (row : Row) (kp : String),
      table.keyPath = some kp →
      (∀ s, alookup row kp ≠ some (VStr s)) → parseRow table row = none) ∧
    (∀ (table : StoreSchema) (row : Row) (r : Record),
      parseRow table row = some r →
      ∃ kp s, table.keyPath = some kp ∧ alookup row kp = some (VStr s)) := by
  refine ⟨?_, ?_, ?_⟩
  · intro table row h
    cases hb : alookup row DEFAULT_BLOB_COLUMN with
    | none => simp [parseRow, hb]
    | some v =>
      cases v with
      | VStr p =>
        cases hj : jsonParse p with
        | none => simp [parseRow, hb, hj]
        | some value => simp [parseRow, hb, hj, h]
      | VInt n => simp [parseRow, hb]
      | VNaN => simp [parseRow, hb]
  · intro table row kp hkp hnostr
    cases hb : alookup row DEFAULT_BLOB_COLUMN with
    | none => simp [parseRow, hb]
    | some v =>
      cases v with
      | VStr p =>
        cases hj : jsonParse p with
        | none => simp [parseRow, hb, hj]
        | some value =>
          cases hk : alookup row kp with
          | none => simp [parseRow, hb, hj, hkp, hk]
          | some kv =>
            cases kv with
            | VStr s => exact absurd hk (hnostr s)
            | VInt n => simp [parseRow, hb, hj, hkp, hk]
            | VNaN => simp [parseRow, hb, hj, hkp, hk]
      | VInt n => simp [parseRow, hb]
      | VNaN => simp [parseRow, hb]
  · intro table row r h
    cases hb : alookup row DEFAULT_BLOB_COLUMN with
    | none => simp [parseRow, hb] at h
    | some v =>
      cases v with
      | VStr p =>
        cases hj : jsonParse p with
        | none => simp [parseRow, hb, hj] at h
        | some value =>
          cases hkp : table.keyPath with
          | none => simp [parseRow, hb, hj, hkp] at h
          | some kp =>
            cases hk : alookup row kp with
            | none => simp [parseRow, hb, hj, hkp, hk] at h
            | some kv =>
              cases kv with
              | VStr s => exact ⟨kp, s, rfl, hk⟩
              | VInt n => simp [parseRow, hb, hj, hkp, hk] at h
              | VNaN => simp [parseRow, hb, hj, hkp, hk] at h
      | VInt n => simp [parseRow, hb] at h
      | VNaN => simp [parseRow, hb] at h

/-- C10 witness: the three parts of the key-assertion theorem applied at
concrete inputs — a surrogate-key store, a row with a numeric key cell,
and a successful decode. -/
theorem c10_witness :
    parseRow noKpStore rowA = none ∧
    parseRow noteStore
      [(DEFAULT_BLOB_COLUMN, VStr (jsonStringify recA)), ("id", VInt 5)] = none ∧
    (∃ kp s, noteStore.keyPath = some kp ∧ alookup rowA kp = some (VStr s)) := by
  refine ⟨c10_parse_row_key_assertion.1 noKpStore rowA rfl,
    c10_parse_row_key_assertion.2.1 noteStore
      [(DEFAULT_BLOB_COLUMN, VStr (jsonStringify recA)), ("id", VInt 5)] "id" rfl
      (by
        intro s hs
        simp only [alookup] at hs
        rw [if_neg (by decide : ¬((DEFAULT_BLOB_COLUMN,
          VStr (jsonStringify recA)).1 = "id"))] at hs
        simp [alookup] at hs),
    c10_parse_row_key_assertion.2.2 noteStore rowA recA (by decide)⟩

/-- A store that does not yet carry the reserved payload column. -/
def plainStore : StoreSchema := ⟨"note", some "id", [⟨"tag", DataType.TEXT, false⟩]⟩

/-- C9 counterexample: table-creation synthesis mutates the catalog — for
a store without the reserved payload column, `prepareCreateTable` returns
a store schema whose index list has changed. -/
theorem c9_counterexample : (prepareCreateTable plainStore).2 ≠ plainStore := by
  decide

/-- C9 (amended): the only catalog mutation any core operation performs is
`prepareCreateTable` appending the reserved payload column to a store's
index list when it is absent; name, key path and the declared indexes are
preserved, and the mutation is idempotent (a store already carrying the
payload column is returned unchanged). -/
theorem c9_amended_catalog_mutation (s : StoreSchema) :
    (prepareCreateTable s).2.name = s.name ∧
    (prepareCreateTable s).2.keyPath = s.keyPath ∧
    (prepareCreateTable s).2.indexes = s.indexes ++
      (if s.hasIndex DEFAULT_BLOB_COLUMN then []
       else [⟨DEFAULT_BLOB_COLUMN, DataType.TEXT, false⟩]) ∧
    (prepareCreateTable (prepareCreateTable s).2).2 = (prepareCreateTable s).2 := by
  have hsnd : ∀ t : StoreSchema, (prepareCreateTable t).2 =
      if t.hasIndex DEFAULT_BLOB_COLUMN then t
      else t.addIndex DEFAULT_BLOB_COLUMN := fun _ => rfl
  by_cases h : s.hasIndex DEFAULT_BLOB_COLUMN
  · refine ⟨?_, ?_, ?_, ?_⟩
    · rw [hsnd, if_pos h]
    · rw [hsnd, if_pos h]
    · rw [hsnd, if_pos h, if_pos h, List.append_nil]
    · rw [hsnd s, if_pos h, hsnd s, if_pos h]
  · have h' : (s.addIndex DEFAULT_BLOB_COLUMN).hasIndex DEFAULT_BLOB_COLUMN = true := by
      simp [StoreSchema.hasIndex, StoreSchema.addIndex, List.any_append]
    refine ⟨?_, ?_, ?_, ?_⟩
    · rw [hsnd, if_neg h]
      rfl
    · rw [hsnd, if_neg h]
      rfl
    · rw [hsnd, if_neg h, if_neg h]
      rfl
    · rw [hsnd s, if_neg h, hsnd, if_pos h']

/-- C7: every operation naming a store absent from the catalog — put, get
and the in-transaction variants — rejects its deferred before any backend
statement is issued. -/
theorem c7_unknown_store_rejected_before_statement
    (schema : DatabaseSchema) (tx : Nat) (s : String) (key : Option JsVal)
    (arr : List Record) (gen : Nat → Int) (id : JsVal)
    (h : getStore schema s = none) :
    executePut schema tx s arr gen = { errbacked := true, stmts := [] } ∧
    (executeGet schema tx s key).errbacked = true ∧
    (executeGet schema tx s key).stmt = none ∧
    (getInTransaction schema tx s id).errbacked = true ∧
    (getInTransaction schema tx s id).stmt = none ∧
    putInTransaction schema tx s arr gen = { errbacked := true, stmts := [] } := by
  refine ⟨?_, ?_, ?_, ?_, ?_, ?_⟩ <;>
    simp [executePut, executeGet, getInTransaction, putInTransaction, h]

/-- C7 witness: the unknown-store rejection at a concrete catalog and
store name. -/
theorem c7_witness :
    executePut demoSchema 1 "nosuch" [recA] (fun _ => 0) =
      { errbacked := true, stmts := [] } ∧
    (executeGet demoSchema 1 "nosuch" (some (VStr "a"))).errbacked = true ∧
    (executeGet demoSchema 1 "nosuch" (some (VStr "a"))).stmt = none ∧
    (getInTransaction demoSchema 1 "nosuch" (VStr "a")).errbacked = true ∧
    (getInTransaction demoSchema 1 "nosuch" (VStr "a")).stmt = none ∧
    putInTransaction demoSchema 1 "nosuch" [recA] (fun _ => 0) =
      { errbacked := true, stmts := [] } :=
  c7_unknown_store_rejected_before_statement demoSchema 1 "nosuch"
    (some (VStr "a")) [recA] (fun _ => 0) (VStr "a") (by decide)

/-- C8: a keyed lookup with no matching row resolves with the defined
absent marker (JS `undefined`), not an error, and an unkeyed `get` on an
empty store resolves with the empty sequence. -/
theorem c8_absent_is_not_error (table : StoreSchema) (k : JsVal) :
    executeGetCallback table (some k) [] = some GetResolve.undef ∧
    executeGetCallback table none [] = some (GetResolve.recs []) :=
  ⟨rfl, rfl⟩

/-- C4: `getInTransaction` and `putInTransaction` execute their operation
against the supplied physical transaction (here transaction 7) and hand
back a deferred-producing execution; `clearInTransaction`, however, is an
empty function body in the source — it issues nothing and returns
JS `undefined` instead of a deferred. -/
theorem c4_in_transaction_entry_points :
    getInTransaction demoSchema 7 "note" (VStr "a") =
      { errbacked := false, threw := false,
        stmt := some { tx := 7, sql := "SELECT * FROM \"note\" WHERE \"id\" = ?",
                       params := [VStr "a"] } } ∧
    putInTransaction demoSchema 7 "note" [recA] (fun _ => 1) =
      { errbacked := false, stmts := [putStmt 7 noteStore recA 1] } ∧
    (putStmt 7 noteStore recA 1).tx = 7 ∧
    clearInTransaction 7 "note" (VStr "a") = none := by
  refine ⟨by decide, by decide, rfl, rfl⟩

/-- C3: `clear()` with no store argument iterates the catalog object's
property names (`for (var store in this.schema)`), not the declared
stores: on a catalog declaring only "note", every per-property `clear_`
fails its store-exists assertion (none of "version"/"size"/"stores" is a
store), the whole call throws, and the per-store DELETE that `clear_`
would issue for "note" is never requested. -/
theorem c3_clear_all_uses_schema_property_names :
    ydbClear demoSchema 5 none none = none ∧
    schemaForInProps demoSchema = ["version", "size", "stores"] ∧
    getStore demoSchema "version" = none ∧
    getStore demoSchema "size" = none ∧
    getStore demoSchema "stores" = none ∧
    clearOne demoSchema 5 (some "note") none =
      some { tx := 5, sql := "DELETE FROM  \"note\"", params := [] } := by
  refine ⟨by decide, rfl, by decide, by decide, by decide, by decide⟩

/-- C2: `runInTransaction` removes the injected transaction association
from every scope token when its deferred settles, on success and failure
alike — after settlement no token retains a transaction handle. -/
theorem c2_scope_cleanup_unconditional (txId : Nat) (keys : List Token)
    (success : Bool) :
    (settleScope (runInTransaction txId keys).df success
        (runInTransaction txId keys).keysAfterStart).all
      (fun k => k.tx == none) = true := by
  simp [runInTransaction, settleScope, List.all_eq_true]

/-! ### Scan-boundary lemmas for the fetch loop -/

theorem fetchGo_cont_stop (store : StoreSchema) (q : Query) (c : Record → Bool)
    (limit : Option Nat)
    (hc : q.cont = some c) (hf : q.filter = none) (hr : q.reduce = none) :
    ∀ (rows : List Row) (vals : List Record) (N i : Nat) (acc : List Record),
      List.Forall₂ (fun row v => parseRow store row = some v) rows vals →
      N < vals.length →
      (∀ x ∈ vals.take N, c x = true) →
      c (vals.getD N []) = false →
      (∀ L, limit = some L → i + N < L) →
      fetchGo store q limit i (FetchOutcome.seq acc) rows =
        some (FetchOutcome.seq (acc ++ (vals.take (N + 1)).map (mapApply q))) := by
  intro rows vals N i acc hfa
  induction hfa generalizing N i acc with
  | nil =>
    intro hN _ _ _
    simp at hN
  | cons hpv htail ih =>
    rename_i row v rows' vals'
    intro hN hall hfalse hlim
    cases N with
    | zero =>
      have hcv : c v = false := by simpa using hfalse
      simp [fetchGo, hpv, hc, hf, hr, hcv, applyRow]
    | succ M =>
      have hcv : c v = true := hall v (by simp [List.take_succ_cons])
      have hstep : fetchGo store q limit i (FetchOutcome.seq acc) (row :: rows') =
          fetchGo store q limit (i + 1)
            (FetchOutcome.seq (acc ++ [mapApply q v])) rows' := by
        cases limit with
        | none => simp [fetchGo, hpv, hc, hf, hr, hcv, applyRow]
        | some L =>
          have hiL : i < L := by have := hlim L rfl; omega
          simp [fetchGo, hpv, hc, hf, hr, hcv, hiL, applyRow]
      have hN' : M < vals'.length := by
        simp only [List.length_cons] at hN
        omega
      have hall' : ∀ x ∈ vals'.take M, c x = true := by
        intro x hx
        exact hall x (by rw [List.take_succ_cons]; exact List.mem_cons_of_mem v hx)
      have hfalse' : c (vals'.getD M []) = false := by simpa using hfalse
      have hlim' : ∀ L, limit = some L → (i + 1) + M < L := by
        intro L hL
        have := hlim L hL
        omega
      rw [hstep, ih M (i + 1) (acc ++ [mapApply q v]) hN' hall' hfalse' hlim']
      simp [List.take_succ_cons]

theorem fetchGo_filter_rejected_stop (store : StoreSchema) (q : Query)
    (c f : Record → Bool) (limit : Option Nat)
    (hc : q.cont = some c) (hf : q.filter = some f) (hr : q.reduce = none) :
    ∀ (us : List Record) (rows : List Row) (w : Record) (junk : List Row)
      (i : Nat) (acc : List Record),
      List.Forall₂ (fun row v => parseRow store row = some v) rows (us ++ [w]) →
      (∀ x ∈ us, c x = true) →
      c w = false → f w = false →
      (∀ L, limit = some L → i + us.length ≤ L) →
      fetchGo store q limit i (FetchOutcome.seq acc) (rows ++ junk) =
        some (FetchOutcome.seq (acc ++ (us.filter f).map (mapApply q))) := by
  intro us
  induction us with
  | nil =>
    intro rows w junk i acc hfa hall hcw hfw hlim
    cases hfa with
    | cons hpv htail =>
      cases htail
      rename_i row
      simp [fetchGo, hpv, hc, hf, hr, hcw, hfw]
  | cons u us' ih =>
    intro rows w junk i acc hfa hall hcw hfw hlim
    cases hfa with
    | cons hpv htail =>
      rename_i row rows'
      have hcu : c u = true := hall u (by simp)
      have hall' : ∀ x ∈ us', c x = true := fun x hx => hall x (by simp [hx])
      have hlim' : ∀ L, limit = some L → (i + 1) + us'.length ≤ L := by
        intro L hL
        have := hlim L hL
        simp only [List.length_cons] at this
        omega
      by_cases hfu : f u = true
      · have hstep : fetchGo store q limit i (FetchOutcome.seq acc)
            ((row :: rows') ++ junk) =
            fetchGo store q limit (i + 1)
              (FetchOutcome.seq (acc ++ [mapApply q u])) (rows' ++ junk) := by
          cases limit with
          | none => simp [fetchGo, hpv, hc, hf, hr, hcu, hfu, applyRow]
          | some L =>
            have hiL : i < L := by
              have := hlim L rfl
              simp only [List.length_cons] at this
              omega
            simp [fetchGo, hpv, hc, hf, hr, hcu, hfu, hiL, applyRow]
        rw [hstep, ih rows' w junk (i + 1) (acc ++ [mapApply q u]) htail hall'
          hcw hfw hlim']
        simp [List.filter_cons, hfu]
      · have hfu' : f u = false := by
          cases hval : f u
          · rfl
          · exact absurd hval hfu
        have hstep : fetchGo store q limit i (FetchOutcome.seq acc)
            ((row :: rows') ++ junk) =
            fetchGo store q limit (i + 1) (FetchOutcome.seq acc)
              (rows' ++ junk) := by
          cases limit with
          | none => simp [fetchGo, hpv, hc, hf, hr, hcu, hfu', applyRow]
          | some L =>
            have hiL : i < L := by
              have := hlim L rfl
              simp only [List.length_cons] at this
              omega
            simp [fetchGo, hpv, hc, hf, hr, hcu, hfu', hiL, applyRow]
        rw [hstep, ih rows' w junk (i + 1) acc htail hall' hcw hfw hlim']
        simp [List.filter_cons, hfu']

theorem fetchGo_limit_stop (store : StoreSchema) (q : Query) (L : Nat)
    (hc : q.cont = none) :
    ∀ (vals : List Record) (rows junk : List Row) (i : Nat) (res : FetchOutcome),
      List.Forall₂ (fun row v => parseRow store row = some v) rows vals →
      vals ≠ [] →
      i + vals.length = L + 1 →
      fetchGo store q (some L) i res (rows ++ junk) =
        fetchGo store q (some L) i res rows := by
  intro vals
  induction vals with
  | nil =>
    intro rows junk i res _ hne _
    exact absurd rfl hne
  | cons w vals' ih =>
    intro rows junk i res hfa hne hlen
    cases hfa with
    | cons hpv htail =>
      rename_i row rows'
      cases vals' with
      | nil =>
        cases htail
        have hiL : i = L := by
          simp only [List.length_cons, List.length_nil] at hlen
          omega
        subst hiL
        simp [fetchGo, hpv, hc, Nat.lt_irrefl]
      | cons w2 vals'' =>
        have hiL : i < L := by
          simp only [List.length_cons] at hlen
          omega
        have hlen' : (i + 1) + (w2 :: vals'').length = L + 1 := by
          simp only [List.length_cons] at hlen ⊢
          omega
        simp only [List.cons_append]
        simp only [fetchGo, hpv, hc]
        simp only [Bool.true_and, decide_eq_true_eq, hiL, if_true]
        exact ih rows' junk (i + 1) _ htail (by simp) hlen'

/-- A continuation predicate that is false on every record. -/
def contFalse : Record → Bool := fun _ => false

/-- A continuation predicate true exactly on records whose "id" is "a". -/
def contIdA : Record → Bool := fun v => alookup v "id" == some (VStr "a")

/-- A filter predicate true exactly on records whose "tag" is "x". -/
def filtX : Record → Bool := fun v => alookup v "tag" == some (VStr "x")

/-- Query with an always-false continuation predicate and no filter. -/
def demoQ1 : Query := ⟨"note", some contFalse, none, none, none⟩

/-- Query whose continuation predicate first returns false at row index 1. -/
def demoQ2 : Query := ⟨"note", some contIdA, none, none, none⟩

/-- Query with both a continuation predicate and a filter. -/
def demoQ6 : Query := ⟨"note", some contIdA, some filtX, none, none⟩

/-- Query with a filter but no continuation predicate. -/
def demoQ6b : Query := ⟨"note", none, some filtX, none, none⟩

/-- Rows past the scan boundary that would fail to decode if visited. -/
def junkRows : List Row := [[("x", VNaN)]]

/-- C1 counterexample: with a continuation predicate returning false for
the first time at row index 0 (`contFalse`), no filter, and limit 5 > 0,
the claim says the resolved sequence has exactly 0 elements — but the
fetch loop evaluates the continuation before the push and breaks after
it, so the stopping row is still appended and the result has 1 element. -/
theorem c1_counterexample :
    fetchCallback noteStore demoQ1 (some 5) [rowA] =
      some (FetchOutcome.seq [recA]) ∧
    fetchCallback noteStore demoQ1 (some 5) [rowA] ≠
      some (FetchOutcome.seq []) ∧
    contFalse recA = false := by
  refine ⟨by decide, by decide, rfl⟩

/-- C1 (amended): with a continuation predicate, no filter and no reduce,
if the predicate is true on the first `N` decoded rows, false on row
index `N`, and any supplied limit exceeds `N`, the scan stops right after
processing row `N` — the stopping row included — so the resolved result
sequence is the first `N + 1` decoded rows (through the map function) and
has exactly `N + 1` elements. -/
theorem c1_scan_stop_amended (store : StoreSchema) (q : Query)
    (c : Record → Bool) (limit : Option Nat) (rows : List Row)
    (vals : List Record) (N : Nat)
    (hc : q.cont = some c) (hf : q.filter = none) (hr : q.reduce = none)
    (hfa : List.Forall₂ (fun row v => parseRow store row = some v) rows vals)
    (hN : N < vals.length)
    (hall : ∀ x ∈ vals.take N, c x = true)
    (hfalse : c (vals.getD N []) = false)
    (hlim : ∀ L, limit = some L → N < L) :
    fetchCallback store q limit rows =
      some (FetchOutcome.seq ((vals.take (N + 1)).map (mapApply q))) ∧
    ((vals.take (N + 1)).map (mapApply q)).length = N + 1 := by
  constructor
  · have h := fetchGo_cont_stop store q c limit hc hf hr rows vals N 0 [] hfa hN
      hall hfalse (by intro L hL; simpa using hlim L hL)
    simpa [fetchCallback, hr] using h
  · rw [List.length_map, List.length_take]
    omega

/-- C1 witness: the amended scan-stop behaviour at a concrete query whose
continuation predicate is true on row 0 and false on row 1, with limit 5. -/
theorem c1_witness :
    fetchCallback noteStore demoQ2 (some 5) [rowA, rowB] =
      some (FetchOutcome.seq (([recA, recB].take (1 + 1)).map (mapApply demoQ2))) ∧
    (([recA, recB].take (1 + 1)).map (mapApply demoQ2)).length = 1 + 1 :=
  c1_scan_stop_amended noteStore demoQ2 contIdA (some 5) [rowA, rowB]
    [recA, recB] 1 rfl rfl rfl
    (List.Forall₂.cons (by decide) (List.Forall₂.cons (by decide) List.Forall₂.nil))
    (by decide) (by decide) (by decide)
    (by intro L hL; injection hL with h; omega)

/-- C6: (1) the continuation predicate is evaluated on every fetched row,
filter-rejected rows included — with `us` passing the continuation and a
final row `w` rejected by both the filter and the continuation, the scan
stops at `w` (any trailing rows, even undecodable ones, are never
visited), and `w` itself is excluded from the result; (2) a row that
fails the filter still counts toward limit evaluation — with no
continuation predicate and limit `L`, scanning stops after row index `L`
whatever the filter did, so trailing rows are never visited. -/
theorem c6_continuation_counts_filtered_rows :
    (∀ (store : StoreSchema) (q : Query) (c f : Record → Bool)
       (limit : Option Nat) (rows junk : List Row) (us : List Record)
       (w : Record),
       q.cont = some c → q.filter = some f → q.reduce = none →
       List.Forall₂ (fun row v => parseRow store row = some v) rows (us ++ [w]) →
       (∀ x ∈ us, c x = true) → c w = false → f w = false →
       (∀ L, limit = some L → us.length ≤ L) →
       fetchCallback store q limit (rows ++ junk) =
         some (FetchOutcome.seq ((us.filter f).map (mapApply q)))) ∧
    (∀ (store : StoreSchema) (q : Query) (L : Nat) (rows junk : List Row)
       (vals : List Record),
       q.cont = none →
       List.Forall₂ (fun row v => parseRow store row = some v) rows vals →
       vals.length = L + 1 →
       fetchCallback store q (some L) (rows ++ junk) =
         fetchCallback store q (some L) rows) := by
  constructor
  · intro store q c f limit rows junk us w hc hf hr hfa hall hcw hfw hlim
    have h := fetchGo_filter_rejected_stop store q c f limit hc hf hr us rows w
      junk 0 [] hfa hall hcw hfw (by intro L hL; simpa using hlim L hL)
    simpa [fetchCallback, hr] using h
  · intro store q L rows junk vals hc hfa hlen
    have hne : vals ≠ [] := by
      intro h
      rw [h] at hlen
      simp at hlen
    simp only [fetchCallback]
    exact fetchGo_limit_stop store q L hc vals rows junk 0 _ hfa hne
      (by simpa using hlen)

/-- C6 witness: both parts at concrete queries over the "note" store,
with an undecodable trailing row that the stopped scan never visits. -/
theorem c6_witness :
    fetchCallback noteStore demoQ6 none ([rowA, rowB] ++ junkRows) =
      some (FetchOutcome.seq (([recA].filter filtX).map (mapApply demoQ6))) ∧
    fetchCallback noteStore demoQ6b (some 1) ([rowA, rowB] ++ junkRows) =
      fetchCallback noteStore demoQ6b (some 1) [rowA, rowB] :=
  ⟨c6_continuation_counts_filtered_rows.1 noteStore demoQ6 contIdA filtX none
      [rowA, rowB] junkRows [recA] recB rfl rfl rfl
      (List.Forall₂.cons (by decide)
        (List.Forall₂.cons (by decide) List.Forall₂.nil))
      (by decide) (by decide) (by decide)
      (by intro L hL; exact Option.noConfusion hL),
    c6_continuation_counts_filtered_rows.2 noteStore demoQ6b 1 [rowA, rowB]
      junkRows [recA, recB] rfl
      (List.Forall₂.cons (by decide)
        (List.Forall₂.cons (by decide) List.Forall₂.nil))
      rfl⟩
